import Mathlib

/-!
Verification of the orchestration core of the pi-voice-assistant repository.

The Python modules `src/core/state.py`, `src/core/orchestrator.py`,
`src/core/session.py` and `src/util/chunk_batcher.py` are embedded shallowly:
strings become `List Char`, monotonic clock readings become `Rat` values
passed explicitly, the asyncio queues of one THINKING turn become lists of
`Option` values (the `None` sentinel is `none`), and each state handler of the
run loop becomes a function of the external inputs it consumes.
-/

/- ===================== src/core/state.py ===================== -/

/-- `AssistantState` enumeration from `src/core/state.py`. -/
inductive AssistantState where
  | WAITING
  | LISTENING
  | TRANSCRIBING
  | THINKING
  | SPEAKING
deriving DecidableEq, Repr, Fintype

/-- The authoritative transition table `TRANSITIONS` from `src/core/state.py`
(the Python `dict` of sets, rendered as a total function to lists). -/
def TRANSITIONS : AssistantState → List AssistantState
  | .WAITING => [.LISTENING]
  | .LISTENING => [.TRANSCRIBING, .WAITING]
  | .TRANSCRIBING => [.THINKING, .WAITING]
  | .THINKING => [.SPEAKING, .WAITING]
  | .SPEAKING => [.WAITING, .LISTENING]

/-- The payload of the `ValueError` raised by `validate_transition`: the
message interpolates the current and the target state, so the error identifies
both. -/
structure TransitionError where
  current : AssistantState
  target : AssistantState
deriving DecidableEq, Repr

instance : DecidableEq (Except TransitionError Unit) := fun a b =>
  match a, b with
  | .ok (), .ok () => isTrue rfl
  | .error x, .error y =>
    if h : x = y then isTrue (by rw [h]) else isFalse (by intro hh; cases hh; exact h rfl)
  | .ok _, .error _ => isFalse (by intro h; cases h)
  | .error _, .ok _ => isFalse (by intro h; cases h)

/-- `validate_transition` from `src/core/state.py`: raising `ValueError` is
modelled as returning `Except.error`. -/
def validate_transition (current target : AssistantState) : Except TransitionError Unit :=
  if target ∈ TRANSITIONS current then Except.ok () else Except.error ⟨current, target⟩

/-- C1: `validate_transition` returns without error exactly for the pairs in
the authoritative transition table, and for every pair not in the table it
raises an error identifying the source and the target state. -/
theorem c1_validate_transition_table :
    ∀ current target : AssistantState,
      (validate_transition current target = Except.ok () ↔ target ∈ TRANSITIONS current) ∧
      (validate_transition current target = Except.error ⟨current, target⟩ ↔
        target ∉ TRANSITIONS current) := by
  decide

/- ============== src/core/orchestrator.py : listening loop ============== -/

/-- The frame loop of `Orchestrator._handle_listening`
(`src/core/orchestrator.py`).  Each frame is represented by the Boolean that
`self._audio_capture.is_silent_frame(frame)` returns for it (`true` = silent,
i.e. RMS energy at or below the threshold).  The loop appends the frame,
updates the consecutive-silence counter and the speech flag, then breaks
either on silence-after-speech or on the `max_frames` cap.  The result is
(number of frames consumed, speech_detected). -/
def listenAux (silenceThreshold maxFrames : Nat) :
    List Bool → Nat → Nat → Bool → Nat × Bool
  | [], count, _, speechDetected => (count, speechDetected)
  | isSilent :: rest, count, silenceFrames, speechDetected =>
    let count := count + 1
    let silenceFrames := if isSilent then silenceFrames + 1 else 0
    let speechDetected := if isSilent then speechDetected else true
    if speechDetected = true ∧ silenceThreshold ≤ silenceFrames then (count, speechDetected)
    else if maxFrames ≤ count then (count, speechDetected)
    else listenAux silenceThreshold maxFrames rest count silenceFrames speechDetected

/-- `silence_threshold = int(1.5 * 1000 / frame_duration_ms)` from
`_handle_listening`; for integer `frame_duration_ms ≥ 1` the Python float
expression equals truncating division of 1500. -/
def silenceThresholdOf (frameDurationMs : Nat) : Nat := 1500 / frameDurationMs

/-- `max_frames = int(10 * 1000 / frame_duration_ms)` from `_handle_listening`. -/
def maxFramesOf (frameDurationMs : Nat) : Nat := 10000 / frameDurationMs

/-- Next state produced by `_handle_listening`: if the running flag was
observed false mid-loop the handler returns early with the state unchanged
(still LISTENING); otherwise no detected speech transitions to WAITING, and
detected speech transitions to TRANSCRIBING. -/
def handleListeningNext (interrupted : Bool) (silenceThreshold maxFrames : Nat)
    (frames : List Bool) : AssistantState :=
  if interrupted then .LISTENING
  else if (listenAux silenceThreshold maxFrames frames 0 0 false).2 = true then .TRANSCRIBING
  else .WAITING

/- ============== src/core/orchestrator.py : other handlers ============== -/

/-- Next state produced by `_handle_waiting`: with `no_wake_wait` it
transitions straight to LISTENING; otherwise it transitions to LISTENING when
the wake word fires, and returns with the state unchanged (WAITING) when the
loop ends without a detection (stop requested / stream exhausted). -/
def handleWaitingNext (noWakeWait wakeDetected : Bool) : AssistantState :=
  if noWakeWait then .LISTENING
  else if wakeDetected then .LISTENING
  else .WAITING

/-- Next state produced by `_handle_transcribing`: a missing audio buffer or
a transcription shorter than 2 characters goes back to WAITING, otherwise on
to THINKING. -/
def handleTranscribingNext (bufferIsNone : Bool) (text : List Char) : AssistantState :=
  if bufferIsNone then .WAITING
  else if text.length < 2 then .WAITING
  else .THINKING

/-- Python whitespace test for a character, as used by `str.strip`,
`str.lstrip` and the regex class `\s` (ASCII range; non-ASCII Unicode
whitespace is not exercised by the properties below). -/
def pyIsSpace (c : Char) : Bool :=
  c = ' ' || c = '\t' || c = '\n' || c = '\x0B' || c = '\x0C' || c = '\r'

/-- `str.lstrip()` on a `List Char`. -/
def lstripWS (s : List Char) : List Char := s.dropWhile pyIsSpace

/-- `str.rstrip()` on a `List Char`. -/
def rstripWS (s : List Char) : List Char := (s.reverse.dropWhile pyIsSpace).reverse

/-- `str.strip()` on a `List Char`. -/
def stripWS (s : List Char) : List Char := rstripWS (lstripWS s)

/-- Next state produced by `_handle_thinking`: an empty (whitespace-only)
accumulated response transitions to WAITING with a warning, and a non-empty
response also transitions to WAITING after touching the session — the handler
never selects any other target state. -/
def handleThinkingNext (responseText : List Char) : AssistantState :=
  if stripWS responseText = [] then .WAITING else .WAITING

/- ============== src/core/orchestrator.py : the run loop ============== -/

/-- The external inputs one iteration of `Orchestrator._run_loop` can consume:
the `self._running` flag sampled by the `while`, whether the dispatched
handler raises an exception that escapes it, and the collaborator data each
handler reads. -/
structure LoopEnv where
  running : Bool
  raises : Bool
  noWakeWait : Bool
  wakeDetected : Bool
  interrupted : Bool
  silenceThreshold : Nat
  maxFrames : Nat
  frames : List Bool
  bufferIsNone : Bool
  transcript : List Char
  responseText : List Char

/-- The `match self._state` dispatch inside `_run_loop`.  `none` models an
exception escaping the handler.  The SPEAKING branch calls
`self._handle_speaking()`, a method that is not defined anywhere on
`Orchestrator`, so reaching it raises `AttributeError`: it is `none`
unconditionally. -/
def dispatch (s : AssistantState) (e : LoopEnv) : Option AssistantState :=
  if e.raises then none
  else
    match s with
    | .WAITING => some (handleWaitingNext e.noWakeWait e.wakeDetected)
    | .LISTENING =>
        some (handleListeningNext e.interrupted e.silenceThreshold e.maxFrames e.frames)
    | .TRANSCRIBING => some (handleTranscribingNext e.bufferIsNone e.transcript)
    | .THINKING => some (handleThinkingNext e.responseText)
    | .SPEAKING => none

/-- One iteration of the `try`/`except` body of `_run_loop`: a handler
exception is caught and the state is reset to WAITING. -/
def loopNext (s : AssistantState) (e : LoopEnv) : AssistantState :=
  (dispatch s e).getD .WAITING

/-- `_run_loop` over a finite script of per-iteration environments.  The
`while self._running` guard samples `e.running`; the result is the final
state together with the number of iterations whose body actually ran. -/
def runLoop : List LoopEnv → AssistantState → AssistantState × Nat
  | [], s => (s, 0)
  | e :: rest, s =>
    if e.running then
      let r := runLoop rest (loopNext s e)
      (r.1, r.2 + 1)
    else (s, 0)

/-- Helper for C2: while the running flag stays true the loop executes one
iteration per script entry, whatever the handlers do (including raising). -/
theorem runLoop_all_running (script : List LoopEnv) :
    ∀ s, (∀ x ∈ script, x.running = true) → (runLoop script s).2 = script.length := by
  induction script with
  | nil => intro s _; rfl
  | cons e rest ih =>
    intro s h
    have he : e.running = true := h e (List.mem_cons_self e rest)
    have hrest : ∀ x ∈ rest, x.running = true := fun x hx => h x (List.mem_cons_of_mem e hx)
    simp only [runLoop, he, if_true, List.length_cons]
    rw [ih (loopNext s e) hrest]

/-- C2: every exception a state handler raises during the run loop is caught
at the loop level and turns into a reset of the current state to WAITING,
after which the loop keeps iterating; an iteration runs whenever the running
flag is true, and the loop stops exactly when `stop()` has cleared the
running flag — never because of a handler exception. -/
theorem c2_run_loop_exception_reset (e : LoopEnv) (rest : List LoopEnv) (s : AssistantState) :
    (e.raises = true → loopNext s e = AssistantState.WAITING) ∧
    (e.running = true →
      runLoop (e :: rest) s =
        ((runLoop rest (loopNext s e)).1, (runLoop rest (loopNext s e)).2 + 1)) ∧
    (e.running = false → runLoop (e :: rest) s = (s, 0)) ∧
    ((∀ x ∈ e :: rest, x.running = true) → (runLoop (e :: rest) s).2 = (e :: rest).length) := by
  refine ⟨fun hr => ?_, fun hrun => ?_, fun hstop => ?_, fun hall => ?_⟩
  · simp [loopNext, dispatch, hr]
  · simp [runLoop, hrun]
  · simp [runLoop, hstop]
  · exact runLoop_all_running (e :: rest) s hall

/-- Witness for C2 at a concrete iteration whose handler raises while the
loop is running: the state is reset to WAITING and the iteration counts. -/
theorem c2_witness :
    runLoop [⟨true, true, false, false, false, 18, 125, [], false, [], []⟩]
        AssistantState.THINKING = (AssistantState.WAITING, 1) ∧
    loopNext AssistantState.THINKING
        ⟨true, true, false, false, false, 18, 125, [], false, [], []⟩ =
      AssistantState.WAITING := by
  have h1 := (c2_run_loop_exception_reset
    ⟨true, true, false, false, false, 18, 125, [], false, [], []⟩ [] AssistantState.THINKING).1 rfl
  have h2 := (c2_run_loop_exception_reset
    ⟨true, true, false, false, false, 18, 125, [], false, [], []⟩ [] AssistantState.THINKING).2.1 rfl
  refine ⟨?_, h1⟩
  rw [h2, h1]
  rfl

/-- States the run loop can make current, starting from the initial state
WAITING set in `Orchestrator.__init__`, closed under one loop iteration with
arbitrary external inputs. -/
inductive ReachableState : AssistantState → Prop
  | init : ReachableState AssistantState.WAITING
  | step (s : AssistantState) (e : LoopEnv) (h : ReachableState s) :
      ReachableState (loopNext s e)

/-- Helper for C9: no handler outcome (nor the exception reset) ever makes
SPEAKING the current state. -/
theorem loopNext_ne_speaking (s : AssistantState) (e : LoopEnv) :
    loopNext s e ≠ AssistantState.SPEAKING := by
  unfold loopNext dispatch
  by_cases hr : e.raises = true
  · simp [hr]
  · cases s <;>
      simp [hr, handleWaitingNext, handleListeningNext, handleTranscribingNext,
        handleThinkingNext] <;>
      (repeat' split) <;> decide

/-- C9: starting from the initial state WAITING, the state SPEAKING never
becomes current in any execution of the run loop: the THINKING handler
transitions only to WAITING, so the SPEAKING dispatch branch (whose handler
method is undefined) is unreachable. -/
theorem c9_speaking_unreachable :
    (∀ responseText : List Char, handleThinkingNext responseText = AssistantState.WAITING) ∧
    (∀ s : AssistantState, ReachableState s → s ≠ AssistantState.SPEAKING) := by
  constructor
  · intro responseText
    unfold handleThinkingNext
    split <;> rfl
  · intro s h
    induction h with
    | init => intro hc; cases hc
    | step s e _ _ => exact loopNext_ne_speaking s e

/-- Witness for C9: the initial state WAITING is reachable and is not
SPEAKING. -/
theorem c9_witness : AssistantState.WAITING ≠ AssistantState.SPEAKING :=
  c9_speaking_unreachable.2 AssistantState.WAITING ReachableState.init

/-- Helper for C3: a run of `K + 1` non-silent (speech) frames never triggers
either stop condition while the cap is not yet reachable, and leaves the loop
with the silence counter reset and speech detected. -/
theorem listen_speech_run (st mx : Nat) (hst : 1 ≤ st) :
    ∀ (K n c : Nat) (b : Bool) (tail : List Bool), n + (K + 1) + st ≤ mx →
      listenAux st mx (List.replicate (K + 1) false ++ tail) n c b =
        listenAux st mx tail (n + (K + 1)) 0 true := by
  intro K
  induction K with
  | zero =>
    intro n c b tail hcap
    have h1 : ¬ st ≤ 0 := by omega
    have h2 : ¬ mx ≤ n + 1 := by omega
    simp [listenAux, h1, h2]
  | succ k ih =>
    intro n c b tail hcap
    have h1 : ¬ st ≤ 0 := by omega
    have h2 : ¬ mx ≤ n + 1 := by omega
    have hrep : List.replicate (k + 1 + 1) false ++ tail
        = false :: (List.replicate (k + 1) false ++ tail) := by
      simp [List.replicate_succ]
    have step : listenAux st mx (false :: (List.replicate (k + 1) false ++ tail)) n c b
        = listenAux st mx (List.replicate (k + 1) false ++ tail) (n + 1) 0 true := by
      rw [listenAux]
      simp [h1, h2]
    rw [hrep, step, ih (n + 1) 0 true tail (by omega)]
    have harith : n + 1 + (k + 1) = n + (k + 1 + 1) := by omega
    rw [harith]

/-- Helper for C3: once speech is detected, a run of silent frames stops the
loop exactly when the consecutive-silence counter reaches the threshold,
i.e. after `st - c` further frames. -/
theorem listen_silence_fires (st mx : Nat) :
    ∀ (d c n M : Nat), c + d = st → 1 ≤ d → d ≤ M → n + d ≤ mx →
      listenAux st mx (List.replicate M true) n c true = (n + d, true) := by
  intro d
  induction d with
  | zero =>
    intro c n M h1 h2 h3 h4
    exact absurd h2 (by decide)
  | succ e ih =>
    intro c n M h1 h2 h3 h4
    cases M with
    | zero => exact absurd h3 (by omega)
    | succ m =>
      by_cases he : e = 0
      · subst he
        have hc : st ≤ c + 1 := by omega
        simp [listenAux, List.replicate_succ, hc]
      · have hc : ¬ st ≤ c + 1 := by omega
        have hmx : ¬ mx ≤ n + 1 := by omega
        have step : listenAux st mx (true :: List.replicate m true) n c true
            = listenAux st mx (List.replicate m true) (n + 1) (c + 1) true := by
          rw [listenAux]
          simp [hc, hmx]
        have hrec := ih (c + 1) (n + 1) m (by omega) (by omega) (by omega) (by omega)
        rw [List.replicate_succ, step, hrec]
        have harith : n + 1 + e = n + (e + 1) := by omega
        rw [harith]

/-- Helper for C3: with no speech ever detected, the loop runs until the
`max_frames` cap and reports speech as not detected. -/
theorem listen_cap (st mx : Nat) :
    ∀ (L c n : Nat), n < mx → mx ≤ n + L →
      listenAux st mx (List.replicate L true) n c false = (mx, false) := by
  intro L
  induction L with
  | zero =>
    intro c n h1 h2
    exact absurd h2 (by omega)
  | succ l ih =>
    intro c n h1 h2
    by_cases hm : mx ≤ n + 1
    · have hmx : mx = n + 1 := by omega
      simp [listenAux, List.replicate_succ, hm, hmx]
    · simp only [List.replicate_succ, listenAux, if_true, hm, ite_false, if_false,
        Bool.false_eq_true, false_and]
      exact ih (c + 1) (n + 1) (by omega) (by omega)

/-- C3: in the LISTENING handler, with the silence threshold and frame cap
derived from `frame_duration_ms` as in the code, a sequence of `K ≥ 1`
above-threshold frames followed by at least `silence_threshold` below-threshold
frames stops capture after exactly `K + silence_threshold` consumed frames
with speech detected (then transitions to TRANSCRIBING); a sequence of only
below-threshold frames stops after exactly `max_frames` frames with speech not
detected, and the handler transitions to WAITING. -/
theorem c3_listening_silence_and_cap (d K M L : Nat)
    (hd1 : 1 ≤ d) (hd2 : d ≤ 1500) (hK : 1 ≤ K)
    (hM : silenceThresholdOf d ≤ M)
    (hcap : K + silenceThresholdOf d ≤ maxFramesOf d)
    (hL : maxFramesOf d ≤ L) :
    listenAux (silenceThresholdOf d) (maxFramesOf d)
        (List.replicate K false ++ List.replicate M true) 0 0 false
      = (K + silenceThresholdOf d, true) ∧
    handleListeningNext false (silenceThresholdOf d) (maxFramesOf d)
        (List.replicate K false ++ List.replicate M true) = AssistantState.TRANSCRIBING ∧
    listenAux (silenceThresholdOf d) (maxFramesOf d) (List.replicate L true) 0 0 false
      = (maxFramesOf d, false) ∧
    handleListeningNext false (silenceThresholdOf d) (maxFramesOf d)
        (List.replicate L true) = AssistantState.WAITING := by
  have hst : 1 ≤ silenceThresholdOf d := by
    have := (Nat.le_div_iff_mul_le hd1).2 (show 1 * d ≤ 1500 by omega)
    exact this
  obtain ⟨k, rfl⟩ : ∃ k, K = k + 1 := ⟨K - 1, by omega⟩
  have h1 : listenAux (silenceThresholdOf d) (maxFramesOf d)
      (List.replicate (k + 1) false ++ List.replicate M true) 0 0 false
      = (k + 1 + silenceThresholdOf d, true) := by
    rw [listen_speech_run (silenceThresholdOf d) (maxFramesOf d) hst k 0 0 false
      (List.replicate M true) (by omega)]
    have hfire := listen_silence_fires (silenceThresholdOf d) (maxFramesOf d)
      (silenceThresholdOf d) 0 (0 + (k + 1)) M (by omega) hst hM (by omega)
    rw [hfire]
    have harith : 0 + (k + 1) + silenceThresholdOf d = k + 1 + silenceThresholdOf d := by omega
    rw [harith]
  have h3 : listenAux (silenceThresholdOf d) (maxFramesOf d) (List.replicate L true) 0 0 false
      = (maxFramesOf d, false) := by
    exact listen_cap (silenceThresholdOf d) (maxFramesOf d) L 0 0 (by omega) (by omega)
  refine ⟨h1, ?_, h3, ?_⟩
  · simp [handleListeningNext, h1]
  · simp [handleListeningNext, h3]

/-- Witness for C3 at the default `frame_duration_ms = 80` (silence threshold
18, frame cap 125): 2 speech frames then 18 silent frames stop at 20 frames
with speech detected; 125 silent frames stop at the cap without speech. -/
theorem c3_witness :
    listenAux (silenceThresholdOf 80) (maxFramesOf 80)
        (List.replicate 2 false ++ List.replicate 18 true) 0 0 false
      = (2 + silenceThresholdOf 80, true) ∧
    handleListeningNext false (silenceThresholdOf 80) (maxFramesOf 80)
        (List.replicate 2 false ++ List.replicate 18 true) = AssistantState.TRANSCRIBING ∧
    listenAux (silenceThresholdOf 80) (maxFramesOf 80) (List.replicate 125 true) 0 0 false
      = (maxFramesOf 80, false) ∧
    handleListeningNext false (silenceThresholdOf 80) (maxFramesOf 80)
        (List.replicate 125 true) = AssistantState.WAITING :=
  c3_listening_silence_and_cap 80 2 18 125 (by decide) (by decide) (by decide)
    (by decide) (by decide) (by decide)

/- ===================== src/core/session.py ===================== -/

/-- A tool call carried by an assistant message (`{name, arguments}`;
arguments are an opaque string-keyed mapping). -/
structure ToolCall where
  name : String
  arguments : List (String × String)
deriving DecidableEq, Repr

/-- `Message` dataclass from `src/core/session.py`. -/
structure Message where
  role : String
  content : String
  tool_calls : Option (List ToolCall) := none
  tool_name : Option String := none
deriving DecidableEq, Repr

/-- `SessionConfig` fields read by `Session` (`src/config/schema.py`);
`idle_timeout_seconds` is a float, modelled as `Rat`. -/
structure SessionConfig where
  idle_timeout_seconds : Rat
  max_history_messages : Nat
deriving DecidableEq, Repr

/-- `Session` state: history, last-activity monotonic timestamp and the
active flag.  Clock readings (`time.monotonic()`) are passed explicitly. -/
structure Session where
  config : SessionConfig
  messages : List Message
  last_activity : Rat
  active : Bool
deriving DecidableEq, Repr

/-- `Session.__init__`. -/
def Session.init (config : SessionConfig) : Session :=
  { config := config, messages := [], last_activity := 0, active := false }

/-- Python list slicing `l[i:]` for an `Int` index: a non-negative index
drops that many elements; a negative index keeps the last `|i|` elements
(all of them when `|i| ≥ len`).  In particular `l[0:]` (and hence `l[-0:]`)
is the whole list. -/
def pySliceFrom (l : List Message) (i : Int) : List Message :=
  if 0 ≤ i then l.drop i.toNat else l.drop (l.length - i.natAbs)

/-- `Session._trim_history`: keep the leading system message (when present)
plus `self._messages[-(max_msgs - 1):]`, or `self._messages[-max_msgs:]`
when the first message is not a system message.  The slice argument is the
Python integer `-(max_msgs - 1)`, which is `0` when `max_msgs = 1`. -/
def Session.trimHistory (s : Session) : Session :=
  if s.messages.length ≤ s.config.max_history_messages then s
  else
    match s.messages with
    | [] =>
      { s with messages := pySliceFrom s.messages (-(s.config.max_history_messages : Int)) }
    | m :: _ =>
      if m.role = "system" then
        { s with
          messages := m :: pySliceFrom s.messages (-((s.config.max_history_messages : Int) - 1)) }
      else
        { s with messages := pySliceFrom s.messages (-(s.config.max_history_messages : Int)) }

/-- `Session.start`: replace the history with a single system message, set
the idle timer and mark active. -/
def Session.start (s : Session) (system_prompt : String) (now : Rat) : Session :=
  { s with
    messages := [{ role := "system", content := system_prompt }],
    last_activity := now,
    active := true }

/-- `Session.add_message`: append, refresh the idle timer, then trim. -/
def Session.add_message (s : Session) (message : Message) (now : Rat) : Session :=
  Session.trimHistory
    { s with messages := s.messages ++ [message], last_activity := now }

/-- `Session.is_active` property: returns the Boolean and the (possibly
mutated) session — crossing the idle timeout flips the active flag off as a
side effect. -/
def Session.is_active (s : Session) (now : Rat) : Bool × Session :=
  if s.active = false then (false, s)
  else if s.config.idle_timeout_seconds ≤ now - s.last_activity then
    (false, { s with active := false })
  else (true, s)

/-- `Session.touch`: refresh the idle timer only. -/
def Session.touch (s : Session) (now : Rat) : Session :=
  { s with last_activity := now }

/-- `Session.end`: force-inactive (named `endSession` because `end` is a
keyword in Lean). -/
def Session.endSession (s : Session) : Session :=
  { s with active := false }

/-- Trimming never touches the active flag. -/
theorem trimHistory_active (s : Session) : (Session.trimHistory s).active = s.active := by
  unfold Session.trimHistory
  repeat' split
  all_goals rfl

/-- C7: for a started (active) session, once elapsed time since last activity
reaches or exceeds the idle timeout, `is_active` returns false, flips the
session to inactive, and returns false again on every subsequent call without
an intervening `start()`; while the elapsed time is still under the timeout it
returns true. -/
theorem c7_is_active_idle_expiry (s : Session) (now now2 : Rat) (hactive : s.active = true) :
    (s.config.idle_timeout_seconds ≤ now - s.last_activity →
      (Session.is_active s now).1 = false ∧
      (Session.is_active s now).2.active = false ∧
      (Session.is_active (Session.is_active s now).2 now2).1 = false) ∧
    (now - s.last_activity < s.config.idle_timeout_seconds →
      (Session.is_active s now).1 = true) := by
  constructor
  · intro hexp
    have hne : ¬ s.active = false := by simp [hactive]
    refine ⟨?_, ?_, ?_⟩ <;> simp [Session.is_active, hne, hexp]
  · intro hlt
    have hne : ¬ s.active = false := by simp [hactive]
    have hnexp : ¬ s.config.idle_timeout_seconds ≤ now - s.last_activity := not_le.2 hlt
    simp [Session.is_active, hne, hnexp]

/-- Witness for C7: a session started at time 0 with a 30-second timeout is
expired at time 30, stays inactive at time 31, and is still active at
time 29. -/
theorem c7_witness :
    ((Session.is_active (Session.start (Session.init ⟨30, 50⟩) "sys" 0) 30).1 = false ∧
      (Session.is_active (Session.start (Session.init ⟨30, 50⟩) "sys" 0) 30).2.active = false ∧
      (Session.is_active
        (Session.is_active (Session.start (Session.init ⟨30, 50⟩) "sys" 0) 30).2 31).1 = false) ∧
    ((Session.is_active (Session.start (Session.init ⟨30, 50⟩) "sys" 0) 29).1 = true) := by
  constructor
  · exact (c7_is_active_idle_expiry (Session.start (Session.init ⟨30, 50⟩) "sys" 0) 30 31
      rfl).1 (by norm_num [Session.start, Session.init])
  · exact (c7_is_active_idle_expiry (Session.start (Session.init ⟨30, 50⟩) "sys" 0) 29 31
      rfl).2 (by norm_num [Session.start, Session.init])

/-- C10: on an inactive session, every operation other than `start` — `touch`,
`add_message`, `end`, and `is_active` itself — leaves the session inactive and
`is_active` false; only `start` makes the session active again. -/
theorem c10_inactive_absorbing (s : Session) (m : Message) (t now : Rat)
    (prompt : String) (h : s.active = false) :
    (Session.touch s t).active = false ∧
    (Session.add_message s m t).active = false ∧
    (Session.endSession s).active = false ∧
    (Session.is_active s now).2.active = false ∧
    (Session.is_active (Session.touch s t) now).1 = false ∧
    (Session.is_active (Session.add_message s m t) now).1 = false ∧
    (Session.is_active (Session.endSession s) now).1 = false ∧
    (Session.is_active s now).1 = false ∧
    (Session.start s prompt t).active = true := by
  have htouch : (Session.touch s t).active = false := h
  have hadd : (Session.add_message s m t).active = false := by
    unfold Session.add_message
    rw [trimHistory_active]
    exact h
  have hend : (Session.endSession s).active = false := rfl
  refine ⟨htouch, hadd, hend, ?_, ?_, ?_, ?_, ?_, rfl⟩ <;>
    simp [Session.is_active, htouch, hadd, hend, h]

/-- Witness for C10 at a concrete never-started session. -/
theorem c10_witness :
    (Session.touch (Session.init ⟨30, 50⟩) 5).active = false ∧
    (Session.add_message (Session.init ⟨30, 50⟩) { role := "user", content := "hi" } 5).active
      = false ∧
    (Session.endSession (Session.init ⟨30, 50⟩)).active = false ∧
    (Session.is_active (Session.init ⟨30, 50⟩) 5).2.active = false ∧
    (Session.is_active (Session.touch (Session.init ⟨30, 50⟩) 5) 6).1 = false ∧
    (Session.is_active
      (Session.add_message (Session.init ⟨30, 50⟩) { role := "user", content := "hi" } 5) 6).1
      = false ∧
    (Session.is_active (Session.endSession (Session.init ⟨30, 50⟩)) 6).1 = false ∧
    (Session.is_active (Session.init ⟨30, 50⟩) 6).1 = false ∧
    (Session.start (Session.init ⟨30, 50⟩) "sys" 5).active = true :=
  c10_inactive_absorbing (Session.init ⟨30, 50⟩) { role := "user", content := "hi" } 5 6
    "sys" rfl

/-- C6 (code bug evaluation): with `max_history_messages = 1`, starting a
session and adding one user message leaves THREE stored messages — the system
message is duplicated and the cap is exceeded — because the Python slice
`self._messages[-(max_msgs - 1):]` is `self._messages[-0:]`, i.e. the whole
list, when `max_msgs = 1`.  The claim (and the trimming invariant in the
spec and in the method's own docstring) requires exactly the leading system
message to remain. -/
theorem c6_trim_negative_zero_slice_bug :
    (Session.add_message (Session.start (Session.init ⟨30, 1⟩) "sys" 0)
        { role := "user", content := "hi" } 1).messages
      = [{ role := "system", content := "sys" }, { role := "system", content := "sys" },
         { role := "user", content := "hi" }] ∧
    ¬ ((Session.add_message (Session.start (Session.init ⟨30, 1⟩) "sys" 0)
        { role := "user", content := "hi" } 1).messages.length
      ≤ (1 : Nat)) := by
  constructor
  · rfl
  · decide

/- ===================== src/util/chunk_batcher.py ===================== -/

/-- Characters of the class `[.!?]` in `ChunkBatcher.SENTENCE_END`. -/
def sentencePunct (c : Char) : Bool :=
  c = '.' || c = '!' || c = '?'

/-- Characters of the class in `ChunkBatcher.PAUSE_POINTS`.  The source file
literally contains the three mojibake characters U+00E2, U+20AC, U+201D
(an em dash that was double-encoded), so the class is
`, ; : -` plus those three characters. -/
def pausePunct (c : Char) : Bool :=
  c = ',' || c = ';' || c = ':' || c = '-' || c = 'â' || c = '€' || c = '”'

/-- A match of the regex `[P](?:\s|$)` starting at index `i` of `s`:
the character at `i` is in the class and is followed by a whitespace
character (consumed, so the match ends at `i + 2`) or by the end of the
string (zero-width `$`, match ends at `i + 1`).  `none` when no match starts
at `i`. -/
def reMatchEndAt (p : Char → Bool) (s : List Char) (i : Nat) : Option Nat :=
  match s.get? i with
  | none => none
  | some c =>
    if p c then
      match s.get? (i + 1) with
      | none => some (i + 1)
      | some d => if pyIsSpace d then some (i + 2) else none
    else none

/-- Scan for the leftmost match start at or after position `i`
(fuel-bounded; fuel `s.length + 1` covers every candidate start). -/
def reSearchAux (p : Char → Bool) (s : List Char) : Nat → Nat → Option Nat
  | 0, _ => none
  | fuel + 1, i =>
    match reMatchEndAt p s i with
    | some e => some e
    | none => reSearchAux p s fuel (i + 1)

/-- `pattern.search(s, pos=startPos).end()`: the end of the leftmost match
whose start is at or after `startPos`, if any. -/
def reSearchEnd (p : Char → Bool) (s : List Char) (startPos : Nat) : Option Nat :=
  reSearchAux p s (s.length + 1) startPos

/-- Ends of the matches produced by `pattern.finditer(s)`: non-overlapping,
scanning left to right, resuming each scan at the end of the previous
match. -/
def reFinditerAux (p : Char → Bool) (s : List Char) : Nat → Nat → List Nat
  | 0, _ => []
  | fuel + 1, i =>
    match reMatchEndAt p s i with
    | some e => e :: reFinditerAux p s fuel e
    | none => reFinditerAux p s fuel (i + 1)

/-- All match ends of `pattern.finditer(s)`, in order. -/
def reFinditerEnds (p : Char → Bool) (s : List Char) : List Nat :=
  reFinditerAux p s (s.length + 1) 0

/-- `str.rfind(' ')`: index of the last space character, if any. -/
def lastSpaceIdx : List Char → Option Nat
  | [] => none
  | c :: rest =>
    match lastSpaceIdx rest with
    | some i => some (i + 1)
    | none => if c = ' ' then some 0 else none

/-- The `ChunkBatcher` state: configuration plus the internal buffer
(`min_words` is stored by the Python class but never used). -/
structure ChunkBatcher where
  minChars : Nat
  maxChars : Nat
  buffer : List Char
deriving DecidableEq, Repr

/-- `ChunkBatcher._extract_at(pos)`: the stripped prefix of length `pos`
becomes the batch; the remainder is left-stripped and becomes the new
buffer. -/
def extractAt (b : ChunkBatcher) (pos : Nat) : List Char × ChunkBatcher :=
  (stripWS (b.buffer.take pos), { b with buffer := lstripWS (b.buffer.drop pos) })

/-- The split position chosen by `ChunkBatcher._split_at_best_point(max_pos)`
(the method then extracts at this position): the last sentence-end match in
`buffer[:max_pos]` ending at or after `min_chars`, else the last pause-point
match ending at or after `min_chars`, else one past the last space if that
space lies strictly after `min_chars`, else the hard cut at `max_pos`. -/
def splitPos (b : ChunkBatcher) (maxPos : Nat) : Nat :=
  match ((reFinditerEnds sentencePunct (b.buffer.take maxPos)).filter
      (fun e => b.minChars ≤ e)).getLast? with
  | some e => e
  | none =>
    match ((reFinditerEnds pausePunct (b.buffer.take maxPos)).filter
        (fun e => b.minChars ≤ e)).getLast? with
    | some e => e
    | none =>
      match lastSpaceIdx (b.buffer.take maxPos) with
      | some i => if b.minChars < i then i + 1 else maxPos
      | none => maxPos

/-- The pause-point fallback at the end of `ChunkBatcher._try_extract_batch`:
only when the buffer has reached 1.5×`min_chars` (`2·len ≥ 3·min_chars`,
exact for the Python float comparison) search for a pause-point match
starting at or after `min_chars` and extract at its end. -/
def pausePos (b : ChunkBatcher) : Option Nat :=
  if 3 * b.minChars ≤ 2 * b.buffer.length then
    reSearchEnd pausePunct b.buffer b.minChars
  else none

/-- The position at which `ChunkBatcher._try_extract_batch` extracts, if any:
below `min_chars` nothing; at or above `max_chars` the forced best-point
split; otherwise the end of the leftmost sentence-end match when that end is
at or after `min_chars` (a leftmost match ending earlier suppresses the
sentence rule), falling through to the pause-point rule. -/
def extractPos (b : ChunkBatcher) : Option Nat :=
  if b.buffer.length < b.minChars then none
  else if b.maxChars ≤ b.buffer.length then some (splitPos b b.maxChars)
  else
    match reSearchEnd sentencePunct b.buffer 0 with
    | some e => if b.minChars ≤ e then some e else pausePos b
    | none => pausePos b

/-- `ChunkBatcher._try_extract_batch`: extract at the chosen position. -/
def tryExtractBatch (b : ChunkBatcher) : Option (List Char × ChunkBatcher) :=
  (extractPos b).map (fun pos => extractAt b pos)

/-- The `while True` loop of `ChunkBatcher._flush_ready`, fuel-bounded.
Every successful extraction with `max_chars ≥ 1` removes at least one
character from the buffer, so fuel `buffer.length + 1` makes the model agree
with the Python loop (which, with `max_chars ≥ 1`, terminates for the same
reason). -/
def flushReadyAux : Nat → ChunkBatcher → List (List Char) × ChunkBatcher
  | 0, b => ([], b)
  | fuel + 1, b =>
    match tryExtractBatch b with
    | none => ([], b)
    | some r =>
      let rest := flushReadyAux fuel r.2
      (r.1 :: rest.1, rest.2)

/-- `ChunkBatcher._flush_ready`. -/
def flushReady (b : ChunkBatcher) : List (List Char) × ChunkBatcher :=
  flushReadyAux (b.buffer.length + 1) b

/-- `ChunkBatcher.add(text)`: append to the buffer and extract all ready
batches. -/
def ChunkBatcher.add (b : ChunkBatcher) (text : List Char) : List (List Char) × ChunkBatcher :=
  flushReady { b with buffer := b.buffer ++ text }

/-- `ChunkBatcher.flush()`: the stripped buffer when it is non-empty after
stripping (Python truthiness), clearing the buffer; otherwise `none` with
the buffer untouched. -/
def ChunkBatcher.flush (b : ChunkBatcher) : Option (List Char) × ChunkBatcher :=
  if stripWS b.buffer = [] then (none, b)
  else (some (stripWS b.buffer), { b with buffer := [] })

/-- A sequence of `add` calls, collecting all emitted batches in order. -/
def runAdds (b : ChunkBatcher) : List (List Char) → List (List Char) × ChunkBatcher
  | [] => ([], b)
  | t :: ts =>
    let r := ChunkBatcher.add b t
    let rest := runAdds r.2 ts
    (r.1 ++ rest.1, rest.2)

/-- A whole run: a fresh batcher, a sequence of `add` calls, one `flush`;
the result is every emitted batch in emission order. -/
def runBatcher (minC maxC : Nat) (texts : List (List Char)) : List (List Char) :=
  match (ChunkBatcher.flush (runAdds ⟨minC, maxC, []⟩ texts).2).1 with
  | some last => (runAdds ⟨minC, maxC, []⟩ texts).1 ++ [last]
  | none => (runAdds ⟨minC, maxC, []⟩ texts).1

/-- C4's premise, as the claim states it: some sentence-ending punctuation
mark followed by whitespace or end-of-buffer ends at or after `minC`
somewhere in the buffer. -/
def sentenceBoundaryAtOrAfter (s : List Char) (minC : Nat) : Bool :=
  (List.range s.length).any (fun i =>
    match reMatchEndAt sentencePunct s i with
    | some e => minC ≤ e
    | none => false)

/-- C4 counterexample: with `min_chars = 10`, `max_chars = 30` and buffer
`"Hi. Bye now. x"` (length 14, so `min_chars ≤ length < max_chars`), a
sentence boundary ends at position 13 ≥ 10, yet `add`/extraction emits no
batch: `_try_extract_batch` inspects only the leftmost `SENTENCE_END` match
(ending at 4 < 10) and then gives up, because the buffer is below
1.5×`min_chars` the pause rule is not even consulted. -/
theorem c4_counterexample :
    10 ≤ ("Hi. Bye now. x".toList).length ∧
    ("Hi. Bye now. x".toList).length < 30 ∧
    sentenceBoundaryAtOrAfter ("Hi. Bye now. x".toList) 10 = true ∧
    extractPos ⟨10, 30, "Hi. Bye now. x".toList⟩ = none ∧
    (ChunkBatcher.add ⟨10, 30, []⟩ ("Hi. Bye now. x".toList)).1 = [] := by
  refine ⟨by decide, by decide, by decide, by decide, by decide⟩

/-- C4 (amended): in the `min_chars ≤ length < max_chars` regime, extraction
splits at a sentence boundary exactly when the end of the LEFTMOST
`SENTENCE_END` match in the buffer is at or after `min_chars`, and it splits
at that first match's end; when the leftmost match ends before `min_chars`
(even if a later sentence boundary ends at or after `min_chars`) the
sentence rule does not fire and extraction defers to the pause-point rule. -/
theorem c4_first_sentence_match_rule (b : ChunkBatcher)
    (hmin : b.minChars ≤ b.buffer.length) (hmax : b.buffer.length < b.maxChars) :
    (∀ e, reSearchEnd sentencePunct b.buffer 0 = some e → b.minChars ≤ e →
      tryExtractBatch b = some (extractAt b e)) ∧
    (∀ e, reSearchEnd sentencePunct b.buffer 0 = some e → e < b.minChars →
      tryExtractBatch b = (pausePos b).map (fun p => extractAt b p)) ∧
    (reSearchEnd sentencePunct b.buffer 0 = none →
      tryExtractBatch b = (pausePos b).map (fun p => extractAt b p)) := by
  have h1 : ¬ b.buffer.length < b.minChars := not_lt.2 hmin
  have h2 : ¬ b.maxChars ≤ b.buffer.length := not_le.2 hmax
  refine ⟨fun e hs he => ?_, fun e hs he => ?_, fun hs => ?_⟩
  · simp [tryExtractBatch, extractPos, h1, h2, hs, he]
  · simp [tryExtractBatch, extractPos, h1, h2, hs, not_le.2 he]
  · simp [tryExtractBatch, extractPos, h1, h2, hs]

/-- Witness for the amended C4: in `"Hello there everyone. more"` with
`min_chars = 10`, `max_chars = 30`, the leftmost sentence match ends at
22 ≥ 10, and extraction splits exactly there. -/
theorem c4_witness :
    tryExtractBatch ⟨10, 30, "Hello there everyone. more".toList⟩ =
      some (extractAt ⟨10, 30, "Hello there everyone. more".toList⟩ 22) :=
  (c4_first_sentence_match_rule ⟨10, 30, "Hello there everyone. more".toList⟩
    (by decide) (by decide)).1 22 (by decide) (by decide)

/- ============== C5: lossless reconstruction machinery ============== -/

/-- `piece` is `raw` with some leading and some trailing whitespace removed —
no interior character is lost, duplicated or reordered. -/
def IsTrimOf (piece raw : List Char) : Prop :=
  ∃ pre suf, pre.all pyIsSpace = true ∧ suf.all pyIsSpace = true ∧
    raw = pre ++ piece ++ suf

/-- The emitted pieces reconstruct `input`: each piece is the trim of a raw
segment, the raw segments concatenate (with at most a whitespace-only
remainder at the very end) to exactly `input`. -/
def TrimDecomp (input : List Char) (pieces : List (List Char)) : Prop :=
  ∃ raws tail, List.Forall₂ IsTrimOf pieces raws ∧
    raws.flatten ++ tail = input ∧ tail.all pyIsSpace = true

theorem takeWhile_all_sat (p : Char → Bool) (l : List Char) :
    (l.takeWhile p).all p = true := by
  rw [List.all_eq_true]
  intro x hx
  exact List.mem_takeWhile_imp hx

theorem rstrip_decomp (s : List Char) :
    ∃ suf, suf.all pyIsSpace = true ∧ s = rstripWS s ++ suf := by
  refine ⟨(s.reverse.takeWhile pyIsSpace).reverse, ?_, ?_⟩
  · rw [List.all_eq_true]
    intro x hx
    rw [List.mem_reverse] at hx
    exact List.mem_takeWhile_imp hx
  · have h : s.reverse = s.reverse.takeWhile pyIsSpace ++ s.reverse.dropWhile pyIsSpace :=
      (List.takeWhile_append_dropWhile _ _).symm
    calc s = s.reverse.reverse := (List.reverse_reverse s).symm
      _ = (s.reverse.takeWhile pyIsSpace ++ s.reverse.dropWhile pyIsSpace).reverse := by
          rw [← h]
      _ = (s.reverse.dropWhile pyIsSpace).reverse ++ (s.reverse.takeWhile pyIsSpace).reverse :=
          List.reverse_append _ _
      _ = rstripWS s ++ (s.reverse.takeWhile pyIsSpace).reverse := rfl

theorem strip_decomp (s : List Char) :
    ∃ pre suf, pre.all pyIsSpace = true ∧ suf.all pyIsSpace = true ∧
      s = pre ++ stripWS s ++ suf := by
  obtain ⟨suf, hsuf, hmid⟩ := rstrip_decomp (lstripWS s)
  refine ⟨s.takeWhile pyIsSpace, suf, takeWhile_all_sat _ _, hsuf, ?_⟩
  have hmid2 : List.dropWhile pyIsSpace s = stripWS s ++ suf := hmid
  conv_lhs => rw [← List.takeWhile_append_dropWhile (p := pyIsSpace) (l := s), hmid2]
  rw [List.append_assoc]

/-- The stripped buffer is empty only when the buffer is whitespace-only. -/
theorem stripWS_eq_nil_all (s : List Char) (h : stripWS s = []) :
    s.all pyIsSpace = true := by
  obtain ⟨pre, suf, hp, hs, hd⟩ := strip_decomp s
  rw [h] at hd
  rw [hd]
  simp [List.all_append, hp, hs]

theorem isTrimOf_strip (s : List Char) : IsTrimOf (stripWS s) s := by
  obtain ⟨pre, suf, hp, hs, hd⟩ := strip_decomp s
  exact ⟨pre, suf, hp, hs, hd⟩

/-- `_extract_at` consumes a contiguous raw segment of the buffer whose trim
is the extracted batch. -/
theorem extractAt_decomp (b : ChunkBatcher) (pos : Nat) :
    ∃ raw, IsTrimOf (extractAt b pos).1 raw ∧
      raw ++ (extractAt b pos).2.buffer = b.buffer := by
  unfold extractAt
  dsimp only
  obtain ⟨pre, suf, hp, hs, hd⟩ := strip_decomp (b.buffer.take pos)
  refine ⟨b.buffer.take pos ++ (b.buffer.drop pos).takeWhile pyIsSpace, ?_, ?_⟩
  · refine ⟨pre, suf ++ (b.buffer.drop pos).takeWhile pyIsSpace, hp, ?_, ?_⟩
    · simp [List.all_append, hs, takeWhile_all_sat]
    · conv_lhs => rw [hd]
      simp [List.append_assoc]
  · have hsplit : (b.buffer.drop pos).takeWhile pyIsSpace ++ lstripWS (b.buffer.drop pos)
        = b.buffer.drop pos := List.takeWhile_append_dropWhile _ _
    calc (b.buffer.take pos ++ (b.buffer.drop pos).takeWhile pyIsSpace)
          ++ lstripWS (b.buffer.drop pos)
        = b.buffer.take pos
            ++ ((b.buffer.drop pos).takeWhile pyIsSpace ++ lstripWS (b.buffer.drop pos)) := by
          rw [List.append_assoc]
      _ = b.buffer.take pos ++ b.buffer.drop pos := by rw [hsplit]
      _ = b.buffer := List.take_append_drop pos b.buffer

/-- Any successful `_try_extract_batch` consumes a raw prefix whose trim is
the batch. -/
theorem tryExtract_decomp (b : ChunkBatcher) (r : List Char × ChunkBatcher)
    (h : tryExtractBatch b = some r) :
    ∃ raw, IsTrimOf r.1 raw ∧ raw ++ r.2.buffer = b.buffer := by
  unfold tryExtractBatch at h
  cases hp : extractPos b with
  | none => rw [hp] at h; cases h
  | some pos =>
    rw [hp] at h
    obtain rfl : extractAt b pos = r := by simpa using h
    exact extractAt_decomp b pos

/-- The `_flush_ready` loop preserves the reconstruction invariant. -/
theorem flushReadyAux_decomp : ∀ (fuel : Nat) (b : ChunkBatcher),
    ∃ raws, List.Forall₂ IsTrimOf (flushReadyAux fuel b).1 raws ∧
      raws.flatten ++ (flushReadyAux fuel b).2.buffer = b.buffer := by
  intro fuel
  induction fuel with
  | zero =>
    intro b
    exact ⟨[], List.Forall₂.nil, by simp [flushReadyAux]⟩
  | succ f ih =>
    intro b
    cases ht : tryExtractBatch b with
    | none =>
      have heq : flushReadyAux (f + 1) b = ([], b) := by
        simp [flushReadyAux, ht]
      rw [heq]
      exact ⟨[], List.Forall₂.nil, by simp⟩
    | some r =>
      obtain ⟨raw, htrim, hraw⟩ := tryExtract_decomp b r ht
      obtain ⟨raws, hfor, hjoin⟩ := ih r.2
      have h1 : (flushReadyAux (f + 1) b).1 = r.1 :: (flushReadyAux f r.2).1 := by
        simp [flushReadyAux, ht]
      have h2 : (flushReadyAux (f + 1) b).2 = (flushReadyAux f r.2).2 := by
        simp [flushReadyAux, ht]
      refine ⟨raw :: raws, ?_, ?_⟩
      · rw [h1]
        exact List.Forall₂.cons htrim hfor
      · rw [h2]
        calc (raw :: raws).flatten ++ (flushReadyAux f r.2).2.buffer
            = raw ++ (raws.flatten ++ (flushReadyAux f r.2).2.buffer) := by
              simp [List.append_assoc]
          _ = raw ++ r.2.buffer := by rw [hjoin]
          _ = b.buffer := hraw

/-- `add` preserves the reconstruction invariant. -/
theorem add_decomp (b : ChunkBatcher) (t : List Char) :
    ∃ raws, List.Forall₂ IsTrimOf (ChunkBatcher.add b t).1 raws ∧
      raws.flatten ++ (ChunkBatcher.add b t).2.buffer = b.buffer ++ t := by
  obtain ⟨raws, h1, h2⟩ := flushReadyAux_decomp
    ((b.buffer ++ t).length + 1) { b with buffer := b.buffer ++ t }
  exact ⟨raws, h1, h2⟩

/-- A whole sequence of `add` calls preserves the reconstruction invariant. -/
theorem runAdds_decomp : ∀ (texts : List (List Char)) (b : ChunkBatcher),
    ∃ raws, List.Forall₂ IsTrimOf (runAdds b texts).1 raws ∧
      raws.flatten ++ (runAdds b texts).2.buffer = b.buffer ++ texts.flatten := by
  intro texts
  induction texts with
  | nil =>
    intro b
    exact ⟨[], List.Forall₂.nil, by simp [runAdds]⟩
  | cons t ts ih =>
    intro b
    obtain ⟨raws1, ha1, ha2⟩ := add_decomp b t
    obtain ⟨raws2, hb1, hb2⟩ := ih (ChunkBatcher.add b t).2
    have h1 : (runAdds b (t :: ts)).1
        = (ChunkBatcher.add b t).1 ++ (runAdds (ChunkBatcher.add b t).2 ts).1 := by
      simp [runAdds]
    have h2 : (runAdds b (t :: ts)).2 = (runAdds (ChunkBatcher.add b t).2 ts).2 := by
      simp [runAdds]
    refine ⟨raws1 ++ raws2, ?_, ?_⟩
    · rw [h1]
      exact List.rel_append ha1 hb1
    · rw [h2]
      calc (raws1 ++ raws2).flatten ++ (runAdds (ChunkBatcher.add b t).2 ts).2.buffer
          = raws1.flatten ++ (raws2.flatten ++ (runAdds (ChunkBatcher.add b t).2 ts).2.buffer) := by
            simp [List.flatten_append, List.append_assoc]
        _ = raws1.flatten ++ ((ChunkBatcher.add b t).2.buffer ++ ts.flatten) := by rw [hb2]
        _ = (raws1.flatten ++ (ChunkBatcher.add b t).2.buffer) ++ ts.flatten := by
            rw [List.append_assoc]
        _ = (b.buffer ++ t) ++ ts.flatten := by rw [ha2]
        _ = b.buffer ++ (t :: ts).flatten := by simp [List.append_assoc]

/-- C5: for every configuration and every finite sequence of `add(text)`
calls followed by one `flush()`, the emitted batches (plus the flushed
remainder) are exactly the trims of consecutive raw segments of the
concatenated input: only whitespace at the split points is removed, and no
interior whitespace or non-whitespace character is lost, duplicated or
reordered. -/
theorem c5_chunkBatcher_lossless (minC maxC : Nat) (texts : List (List Char)) :
    TrimDecomp texts.flatten (runBatcher minC maxC texts) := by
  obtain ⟨raws, h1, h2⟩ := runAdds_decomp texts ⟨minC, maxC, []⟩
  have h2' : raws.flatten ++ (runAdds ⟨minC, maxC, []⟩ texts).2.buffer = texts.flatten := by
    simpa using h2
  unfold runBatcher
  cases hf : (ChunkBatcher.flush (runAdds ⟨minC, maxC, []⟩ texts).2).1 with
  | none =>
    have hbuf : stripWS (runAdds ⟨minC, maxC, []⟩ texts).2.buffer = [] := by
      by_contra hne
      unfold ChunkBatcher.flush at hf
      rw [if_neg hne] at hf
      cases hf
    exact ⟨raws, (runAdds ⟨minC, maxC, []⟩ texts).2.buffer, h1, h2',
      stripWS_eq_nil_all _ hbuf⟩
  | some last =>
    have hcond : ¬ stripWS (runAdds ⟨minC, maxC, []⟩ texts).2.buffer = [] := by
      intro hnil
      unfold ChunkBatcher.flush at hf
      rw [if_pos hnil] at hf
      cases hf
    have hlast : last = stripWS (runAdds ⟨minC, maxC, []⟩ texts).2.buffer := by
      unfold ChunkBatcher.flush at hf
      rw [if_neg hcond] at hf
      exact (Option.some.inj hf).symm
    refine ⟨raws ++ [(runAdds ⟨minC, maxC, []⟩ texts).2.buffer], [], ?_, ?_, rfl⟩
    · rw [hlast]
      exact List.rel_append h1
        (List.Forall₂.cons (isTrimOf_strip _) List.Forall₂.nil)
    · calc (raws ++ [(runAdds ⟨minC, maxC, []⟩ texts).2.buffer]).flatten ++ []
          = raws.flatten ++ (runAdds ⟨minC, maxC, []⟩ texts).2.buffer := by
            simp [List.flatten_append]
        _ = texts.flatten := h2'

/- ========== src/core/orchestrator.py : synthesis/playback pipeline ========== -/

/-- The contents, in FIFO order, that `_handle_thinking` puts on the
`_pending_chunks` queue during one turn: every batch emitted by the
`ChunkBatcher` (plus the flushed remainder), each as `some`, followed by the
single terminal sentinel `None` (`none`). -/
def thinkingTextQueue (batches : List (List Char)) : List (Option (List Char)) :=
  batches.map (fun b => some b) ++ [none]

/-- `Orchestrator._synthesis_worker`: a single task that dequeues text
batches in FIFO order, synthesizes each one to completion before dequeuing
the next (the `await` serializes synthesis regardless of how long each call
takes), enqueues non-empty results on the audio queue, and on the sentinel
forwards one sentinel downstream and exits.  `tts` returns the synthesized
bytes together with the synthesis duration; the duration cannot influence
the queue contents. -/
def synthesisWorker (tts : List Char → List Nat × Nat) :
    List (Option (List Char)) → List (Option (List Nat))
  | [] => []
  | none :: _ => [none]
  | some t :: rest =>
    if (tts t).1.isEmpty then synthesisWorker tts rest
    else some (tts t).1 :: synthesisWorker tts rest

/-- `Orchestrator._playback_worker`: dequeues audio chunks in FIFO order and
plays each one; exits on the sentinel.  The result is the sequence of chunks
played, in play order. -/
def playbackWorker : List (Option (List Nat)) → List (List Nat)
  | [] => []
  | none :: _ => []
  | some a :: rest => a :: playbackWorker rest

/-- Helper for C8: the audio queue contents are exactly the non-empty
synthesized chunks in text-batch submission order, followed by exactly one
sentinel. -/
theorem synthesisWorker_queue (tts : List Char → List Nat × Nat) (batches : List (List Char)) :
    synthesisWorker tts (thinkingTextQueue batches)
      = ((batches.map (fun t => (tts t).1)).filter (fun a => !a.isEmpty)).map
          (fun a => some a) ++ [none] := by
  induction batches with
  | nil => rfl
  | cons b bs ih =>
    by_cases hb : (tts b).1.isEmpty
    · simp [thinkingTextQueue, synthesisWorker, hb, List.filter] at ih ⊢
      exact ih
    · simp [thinkingTextQueue, synthesisWorker, hb, List.filter] at ih ⊢
      exact ih

/-- Helper for C8: the playback worker plays a sentinel-terminated queue in
FIFO order. -/
theorem playbackWorker_plays (l : List (List Nat)) :
    playbackWorker (l.map (fun a => some a) ++ [none]) = l := by
  induction l with
  | nil => rfl
  | cons a rest ih =>
    simp only [List.map_cons, List.cons_append, playbackWorker, List.append_eq]
    rw [ih]

/-- C8: for every sequence of text batches submitted during one THINKING
turn and every assignment of synthesis durations, the playback worker plays
the synthesized audio chunks in the original text-batch submission order
(synthesis durations cannot reorder them, because the single synthesis
worker completes each chunk before dequeuing the next and both queues are
FIFO), and each queue carries exactly one terminal sentinel after all real
items. -/
theorem c8_pipeline_order (batches : List (List Char)) (audioOf : List Char → List Nat)
    (dur1 dur2 : List Char → Nat) :
    thinkingTextQueue batches = batches.map (fun b => some b) ++ [none] ∧
    synthesisWorker (fun t => (audioOf t, dur1 t)) (thinkingTextQueue batches)
      = ((batches.map audioOf).filter (fun a => !a.isEmpty)).map (fun a => some a)
        ++ [none] ∧
    playbackWorker (synthesisWorker (fun t => (audioOf t, dur1 t)) (thinkingTextQueue batches))
      = (batches.map audioOf).filter (fun a => !a.isEmpty) ∧
    synthesisWorker (fun t => (audioOf t, dur1 t)) (thinkingTextQueue batches)
      = synthesisWorker (fun t => (audioOf t, dur2 t)) (thinkingTextQueue batches) := by
  have h1 := synthesisWorker_queue (fun t => (audioOf t, dur1 t)) batches
  have h2 := synthesisWorker_queue (fun t => (audioOf t, dur2 t)) batches
  refine ⟨rfl, h1, ?_, ?_⟩
  · rw [h1, playbackWorker_plays]
  · rw [h1, h2]
